import Mathlib

/-!
Shallow embedding of the investment-tracker storage core: the local
data-store adapter (classes `LocalDataStore` and `LocalTable` in
`server_new.js`, backed by SQLite) and the one-shot migration job
(`migrateUserData` in `migrate.js`), together with proofs of the
specified properties.

Modelling conventions:
* SQLite tables become Lean lists of structure rows kept in ROWID order;
  the UNIQUE constraint on `Users.email` (declared in `createTables`) is
  reflected in the insert operation, which is exactly how the engine
  surfaces it to the adapter.
* `DATETIME` columns hold ISO text; SQLite compares TEXT values bytewise,
  which on these strings agrees with the lexicographic `String` order
  used here.
* JS truthiness on optional string fields (`x || y`) is `jsOr`;
  a missing object field is `Option.none`.
* `portfolio_data` is modelled as the stored TEXT value.  The source
  serializes a non-string payload with `JSON.stringify` and passes a
  string payload through unchanged, so the model takes the serialized
  form directly (every in-repo caller passes a string).
* Engine failures of individual statements are injected through explicit
  Boolean parameters where a claim depends on failure behaviour
  (`deleteRows`), since each SQL statement either applies atomically or
  leaves the database unchanged; the adapter wraps no transaction around
  multi-statement operations.
-/

namespace InvTracker

/-- The single-quote character used by the SQL-ish query strings. -/
def quoteChar : Char := Char.ofNat 39

/-- One-character string holding `quoteChar`. -/
def sq : String := String.mk [quoteChar]

/-- JS `a || b` for an optional string field: `undefined` and the empty
string are falsy, any other string is kept. -/
def jsOr (a : Option String) (b : String) : String :=
  match a with
  | none => b
  | some s => if s = "" then b else s

/-- A row of the `Users` table (`createTables` in `server_new.js`):
ROWID, email (UNIQUE NOT NULL), password, name, created_at, updated_at. -/
structure UserRow where
  rowid : Nat
  email : String
  password : String
  name : String
  created_at : String
  updated_at : String
deriving DecidableEq

/-- A row of the `Portfolios` table (`createTables` in `server_new.js`):
ROWID, user_id, portfolio_data, last_updated. -/
structure PortfolioRow where
  rowid : Nat
  user_id : String
  portfolio_data : String
  last_updated : String
deriving DecidableEq

/-- The stored database state: both tables in ROWID order plus the next
AUTOINCREMENT value for each table (advanced only by successful inserts). -/
structure DB where
  users : List UserRow
  portfolios : List PortfolioRow
  nextUserId : Nat
  nextPortfolioId : Nat
deriving DecidableEq

/-- Fresh database right after `createTables`. -/
def emptyDB : DB := ⟨[], [], 1, 1⟩

/-- Errors the adapter rejects with. -/
inductive DBErr where
  /-- SQLite `UNIQUE constraint failed` on `Users.email`. -/
  | uniqueConflict
  /-- SQLite NOT NULL violation (row data missing a required column). -/
  | notNullViolation
  /-- `Table X not supported` from `insertRow`. -/
  | unsupportedTable (t : String)
  /-- `Update not implemented for table X` from `updateRow`. -/
  | unsupportedUpdate (t : String)
  /-- `Delete criteria not supported for table X` from `deleteRows`. -/
  | unsupportedDelete (t : String)
  /-- Any other failure reported by the engine. -/
  | engineFailure
deriving DecidableEq

/-- The row data handed to `insertRow`; the JS object is destructured
per table, so the model distinguishes the two usable field sets. -/
inductive InsertData where
  | usersData (email password name : String) (created_at : Option String)
  | portfoliosData (user_id portfolio_data : String) (last_updated : Option String)

/-- `LocalTable.insertRow` (`server_new.js` lines 186-237).  For `Users`
the engine enforces the UNIQUE index on email (conflict error); missing
columns (wrong-shaped data) violate NOT NULL; unknown tables reject with
`Table X not supported`.  `now` stands for `new Date().toISOString()`. -/
def insertRow (now : String) (tbl : String) (d : InsertData) (st : DB) : Except DBErr DB :=
  if tbl = "Users" then
    match d with
    | .usersData email password name created_at =>
      if st.users.any (fun r => r.email = email) then .error .uniqueConflict
      else .ok { st with
        users := st.users ++ [⟨st.nextUserId, email, password, name, jsOr created_at now, now⟩],
        nextUserId := st.nextUserId + 1 }
    | _ => .error .notNullViolation
  else if tbl = "Portfolios" then
    match d with
    | .portfoliosData user_id portfolio_data last_updated =>
      .ok { st with
        portfolios := st.portfolios ++
          [⟨st.nextPortfolioId, user_id, portfolio_data, jsOr last_updated now⟩],
        nextPortfolioId := st.nextPortfolioId + 1 }
    | _ => .error .notNullViolation
  else .error (.unsupportedTable tbl)

/-- `LocalTable.updateRow` (`server_new.js` lines 240-268): implemented
only for `Portfolios`; sets `portfolio_data` and refreshes `last_updated`
on every row whose `user_id` matches, returning the change count. -/
def updateRow (now : String) (tbl : String) (criteria_user_id : String)
    (portfolio_data : String) (st : DB) : Except DBErr (DB × Nat) :=
  if tbl = "Portfolios" then
    .ok ({ st with portfolios := st.portfolios.map (fun r =>
            if r.user_id = criteria_user_id then
              { r with portfolio_data := portfolio_data, last_updated := now }
            else r) },
         (st.portfolios.filter (fun r => r.user_id = criteria_user_id)).length)
  else .error (.unsupportedUpdate tbl)

/-- JS truthiness of `criteria.email`: present and nonempty. -/
def emailTruthy : Option String → Bool
  | some e => e != ""
  | none => false

/-- `LocalTable.deleteRows` (`server_new.js` lines 319-337).  Supported
only on `Users` with a truthy `criteria.email`; it then runs two separate
`DELETE` statements under `db.serialize` with no surrounding transaction:
first the `Portfolios` delete, whose error (if any) is swallowed because
no callback is attached, then the `Users` delete whose callback settles
the promise with `this.changes`.  `pFails` / `uFails` inject an engine
failure of the respective statement; a failed statement applies nothing,
a successful one commits immediately.  The returned pair is the settled
promise outcome together with the stored state afterwards. -/
def deleteRows (pFails uFails : Bool) (tbl : String) (criteriaEmail : Option String)
    (st : DB) : Except DBErr Nat × DB :=
  if tbl = "Users" && emailTruthy criteriaEmail then
    let e := criteriaEmail.getD ""
    let st1 := if pFails then st
               else { st with portfolios := st.portfolios.filter (fun r => r.user_id ≠ e) }
    if uFails then (.error .engineFailure, st1)
    else (.ok (st.users.filter (fun r => r.email = e)).length,
          { st1 with users := st1.users.filter (fun r => r.email ≠ e) })
  else (.error (.unsupportedDelete tbl), st)

/-! ### The search query sniffing

`LocalTable.search` receives a query string, checks it for the two
recognized shapes with `String.includes` plus a regex capturing the
single-quoted value, and otherwise hands the raw string to `db.all`. -/

/-- Suffix of `l` after the first occurrence of `pat` as a contiguous
sublist, or `none` when `pat` (assumed nonempty) does not occur. -/
def findSub (pat : List Char) : List Char → Option (List Char)
  | [] => none
  | c :: rest =>
    if pat.isPrefixOf (c :: rest) then some (List.drop pat.length (c :: rest))
    else findSub pat rest

/-- JS `String.includes` on char lists (nonempty pattern). -/
def containsSub (l pat : List Char) : Bool := (findSub pat l).isSome

/-- The regex `pat([^']+)'` applied after locating the literal `pat`
(which itself ends with the opening quote): capture the maximal nonempty
run of non-quote characters provided it is closed by a quote.  On the
query shapes reachable here this agrees with the JS regex match. -/
def extractQuoted (l pat : List Char) : Option (List Char) :=
  match findSub pat l with
  | none => none
  | some rest =>
    let cap := rest.takeWhile (fun c => c ≠ quoteChar)
    if cap.isEmpty then none
    else
      match rest.drop cap.length with
      | c :: _ => if c = quoteChar then some cap else none
      | [] => none

/-- Outcome of `LocalTable.search`: a translated parameterized query over
one of the two tables, or the fallback that hands the raw string to the
engine (`db.all(query, ...)`). -/
inductive SearchOutcome where
  | userRows (rows : List UserRow)
  | portfolioRows (rows : List PortfolioRow)
  | rawFallback (sql : String)
deriving DecidableEq

/-- `SELECT * FROM Users WHERE email = ?` result: filter in ROWID order. -/
def usersWhere (e : String) (st : DB) : List UserRow :=
  st.users.filter (fun r => r.email = e)

/-- Rows of `Portfolios` with the given `user_id`, in ROWID order. -/
def portfoliosWhere (e : String) (st : DB) : List PortfolioRow :=
  st.portfolios.filter (fun r => r.user_id = e)

/-- SQLite compares TEXT values bytewise; on the stored timestamps this
is the lexicographic order of their character lists. -/
def tsLt (a b : String) : Prop := a.data < b.data

instance (a b : String) : Decidable (tsLt a b) :=
  inferInstanceAs (Decidable (a.data < b.data))

/-- Non-strict counterpart of `tsLt`. -/
def tsLe (a b : String) : Prop := a.data ≤ b.data

instance (a b : String) : Decidable (tsLe a b) :=
  inferInstanceAs (Decidable (a.data ≤ b.data))

/-- Fold computing the row with the greatest `last_updated` (first such
row on ties), the row `ORDER BY last_updated DESC LIMIT 1` keeps. -/
def newestOf (r : PortfolioRow) (rs : List PortfolioRow) : PortfolioRow :=
  rs.foldl (fun acc x => if tsLt acc.last_updated x.last_updated then x else acc) r

/-- `ORDER BY last_updated DESC LIMIT 1` applied to a result set. -/
def limitNewest : List PortfolioRow → List PortfolioRow
  | [] => []
  | r :: rs => [newestOf r rs]

def emailKeyL : List Char := "WHERE email=".data

def uidKeyL : List Char := "WHERE user_id=".data

def emailPatL : List Char := emailKeyL ++ [quoteChar]

def uidPatL : List Char := uidKeyL ++ [quoteChar]

/-- First branch of `search` (`server_new.js` lines 277-290): fires only
when the query contains `WHERE email=`, the regex captures a value, and
the table is `Users`. -/
def emailArm (tbl : String) (ql : List Char) (st : DB) : Option SearchOutcome :=
  if containsSub ql emailKeyL then
    match extractQuoted ql emailPatL with
    | some cap =>
      if tbl = "Users" then some (.userRows (usersWhere (String.mk cap) st)) else none
    | none => none
  else none

/-- Second branch of `search` (`server_new.js` lines 292-305): fires only
when the query contains `WHERE user_id=`, the regex captures a value, and
the table is `Portfolios`; runs the newest-first, limit-1 lookup. -/
def uidArm (tbl : String) (ql : List Char) (st : DB) : Option SearchOutcome :=
  if containsSub ql uidKeyL then
    match extractQuoted ql uidPatL with
    | some cap =>
      if tbl = "Portfolios" then
        some (.portfolioRows (limitNewest (portfoliosWhere (String.mk cap) st)))
      else none
    | none => none
  else none

/-- `LocalTable.search` (`server_new.js` lines 271-316): try the two
recognized shapes in order, otherwise fall back to the raw query. -/
def search (tbl : String) (q : String) (st : DB) : SearchOutcome :=
  match emailArm tbl q.data st with
  | some out => out
  | none =>
    match uidArm tbl q.data st with
    | some out => out
    | none => .rawFallback q

/-- Canonical query of the first recognized shape: equality filter on
`Users.email`. -/
def usersEmailQuery (e : String) : String :=
  "SELECT * FROM Users " ++ "WHERE email=" ++ sq ++ e ++ sq

/-- Canonical query of the second recognized shape: equality filter on
`Portfolios.user_id`. -/
def portfoliosOwnerQuery (e : String) : String :=
  "SELECT * FROM Portfolios " ++ "WHERE user_id=" ++ sq ++ e ++ sq

/-! ### The migration job (`migrate.js`) -/

/-- One legacy account blob from `userData.json`: field names as consumed
by `migrateUserData` (`password`, `fullName`/`name`, `created_at`,
`portfolio`, `last_updated`).  The `portfolio` field, when present, is
carried over via `JSON.stringify`; the model holds that serialized text. -/
structure LegacyUser where
  password : String
  fullName : Option String
  name : Option String
  created_at : Option String
  portfolio : Option String
  last_updated : Option String

/-- The parsed legacy snapshot: `userData.users` is a JS object, so the
model keeps its entries in `Object.entries` order with distinct keys not
required by the code path. -/
structure LegacySnapshot where
  users : Option (List (String × LegacyUser))

/-- Result of reading and parsing `client/userData.json`.  The three
failure cases are distinguishable to an observer (and by the spec) but
reach the same `catch` block in the source. -/
inductive LoadResult where
  | loaded (s : LegacySnapshot)
  /-- `ENOENT`: the file does not exist. -/
  | absent
  /-- The file exists but reading it fails (e.g. `EACCES`). -/
  | permissionError
  /-- The file reads but `JSON.parse` throws. -/
  | malformed

/-- Terminal outcome of the migration job. -/
inductive MigrationOutcome where
  /-- Early successful return before the per-user loop: no backup file
  is written. -/
  | nothingToMigrate
  /-- All users processed and the timestamped backup file written. -/
  | completed
  /-- The outer catch fired (reachable here via a backup-copy failure):
  the job logs the error and exits with code 1. -/
  | fatal
deriving DecidableEq

/-- The bcrypt-hash sniff of `migrate.js` line 47: a password counts as
already hashed when it starts with one of the known hash markers
(`String.startsWith`, expressed over the character lists). -/
def isHashed (p : String) : Bool :=
  "$2a$".data.isPrefixOf p.data || "$2b$".data.isPrefixOf p.data

/-- Password written for a legacy user (`migrate.js` lines 46-50):
hash unless it already looks hashed.  `bhash` stands for
`bcrypt.hash(. , 12)`, a salted (hence non-deterministic) function kept
abstract. -/
def migratedPassword (bhash : String → String) (u : LegacyUser) : String :=
  if isHashed u.password then u.password else bhash u.password

/-- One iteration of the per-user loop (`migrate.js` lines 41-83): build
the user record, insert it, and on success carry the embedded portfolio
over; any insert error (uniqueness conflict included) is caught, logged
and skipped, leaving whatever had already been inserted in place. -/
def migrateEntry (bhash : String → String) (now : String) (email : String)
    (u : LegacyUser) (st : DB) : DB :=
  let record := InsertData.usersData email (migratedPassword bhash u)
    (jsOr u.fullName (jsOr u.name "User")) (some (jsOr u.created_at now))
  match insertRow now "Users" record st with
  | .error _ => st
  | .ok st1 =>
    match u.portfolio with
    | none => st1
    | some pdata =>
      match insertRow now "Portfolios" (.portfoliosData email pdata u.last_updated) st1 with
      | .ok st2 => st2
      | .error _ => st1

/-- The whole per-user loop in `Object.entries` order. -/
def migrateLoop (bhash : String → String) (now : String) :
    List (String × LegacyUser) → DB → DB
  | [], st => st
  | (email, u) :: rest, st =>
    migrateLoop bhash now rest (migrateEntry bhash now email u st)

/-- `migrateUserData` (`migrate.js` lines 10-97).  `load` is the result
of reading the legacy snapshot; any load failure lands in the catch of
lines 25-28 and returns successfully.  An absent or empty `users` map
returns successfully before the loop.  Otherwise the loop runs and the
snapshot is copied to a timestamped backup; `backupOk` tells whether that
copy succeeds — its failure is the only fatal path modelled (database
initialization is a prerequisite here). -/
def migrateUserData (bhash : String → String) (now : String) (load : LoadResult)
    (backupOk : Bool) (st : DB) : MigrationOutcome × DB :=
  match load with
  | .loaded snap =>
    match snap.users with
    | none => (.nothingToMigrate, st)
    | some us =>
      if us.isEmpty then (.nothingToMigrate, st)
      else
        let st1 := migrateLoop bhash now us st
        if backupOk then (.completed, st1) else (.fatal, st1)
  | _ => (.nothingToMigrate, st)

/-! ### Adapter operations as a closed set, for invariant preservation -/

/-- One call to a mutating adapter operation (the `search` operation
reads nothing mutable).  Delete carries the injected statement fates. -/
inductive Op where
  | ins (tbl : String) (d : InsertData)
  | upd (tbl : String) (criteria_user_id portfolio_data : String)
  | del (pFails uFails : Bool) (tbl : String) (criteriaEmail : Option String)

/-- Stored state after an operation, whether it resolved or rejected. -/
def applyOp (now : String) (op : Op) (st : DB) : DB :=
  match op with
  | .ins tbl d =>
    match insertRow now tbl d st with
    | .ok st1 => st1
    | .error _ => st
  | .upd tbl c p =>
    match updateRow now tbl c p st with
    | .ok (st1, _) => st1
    | .error _ => st
  | .del pf uf tbl c => (deleteRows pf uf tbl c st).2

/-- The uniqueness invariant of `Users.email`. -/
def UniqueEmails (st : DB) : Prop :=
  st.users.Pairwise (fun a b => a.email ≠ b.email)

/-! ### Supporting lemmas on strings and scanning -/

theorem data_append (a b : String) : (a ++ b).data = a.data ++ b.data := by
  cases a; cases b; rfl

theorem mk_data (e : String) : String.mk e.data = e := by cases e; rfl

theorem data_ne_nil (e : String) (h : e ≠ "") : e.data ≠ [] := by
  intro hd
  apply h
  cases e with
  | mk l =>
    cases hd
    rfl

theorem isPrefixOf_append_self (pat l : List Char) : pat.isPrefixOf (pat ++ l) = true := by
  induction pat with
  | nil => simp [List.isPrefixOf]
  | cons p ps ih => simp [List.isPrefixOf_cons₂, ih]

theorem isPrefixOf_cons_ne (p c : Char) (ps l : List Char) (h : c ≠ p) :
    (p :: ps).isPrefixOf (c :: l) = false := by
  have hb : (p == c) = false := by
    simp only [beq_eq_false_iff_ne, ne_eq]
    exact fun hh => h hh.symm
  simp [List.isPrefixOf_cons₂, hb]

theorem findSub_cons (pat : List Char) (c : Char) (l : List Char) :
    findSub pat (c :: l) =
      if pat.isPrefixOf (c :: l) then some (List.drop pat.length (c :: l))
      else findSub pat l := rfl

theorem findSub_skip (p : Char) (ps pre l : List Char) (h : ∀ c ∈ pre, c ≠ p) :
    findSub (p :: ps) (pre ++ l) = findSub (p :: ps) l := by
  induction pre with
  | nil => rfl
  | cons c rest ih =>
    have hc : c ≠ p := h c (by simp)
    have hrest : ∀ x ∈ rest, x ≠ p := fun x hx => h x (by simp [hx])
    rw [List.cons_append, findSub_cons, isPrefixOf_cons_ne p c ps _ hc]
    simpa using ih hrest

theorem findSub_self (p : Char) (ps l : List Char) :
    findSub (p :: ps) ((p :: ps) ++ l) = some l := by
  rw [List.cons_append, findSub_cons, ← List.cons_append, isPrefixOf_append_self]
  simp [List.drop_left]

theorem takeWhile_no_quote (d t : List Char) (hd : ∀ c ∈ d, c ≠ quoteChar) :
    (d ++ quoteChar :: t).takeWhile (fun c => c ≠ quoteChar) = d := by
  induction d with
  | nil => simp [List.takeWhile_cons]
  | cons c rest ih =>
    have hc : c ≠ quoteChar := hd c (by simp)
    have hrest : ∀ x ∈ rest, x ≠ quoteChar := fun x hx => hd x (by simp [hx])
    rw [List.cons_append, List.takeWhile_cons, if_pos (decide_eq_true hc), ih hrest]

theorem extractQuoted_of_findSub (l pat rest : List Char) (h : findSub pat l = some rest) :
    extractQuoted l pat =
      (let cap := rest.takeWhile (fun c => c ≠ quoteChar)
       if cap.isEmpty then none
       else
         match rest.drop cap.length with
         | c :: _ => if c = quoteChar then some cap else none
         | [] => none) := by
  unfold extractQuoted
  rw [h]

theorem extractQuoted_canonical (p : Char) (ps pre : List Char) (e : String)
    (hpre : ∀ c ∈ pre, c ≠ p) (he : e ≠ "") (hq : ∀ c ∈ e.data, c ≠ quoteChar) :
    extractQuoted (pre ++ ((p :: ps) ++ (e.data ++ [quoteChar]))) (p :: ps) = some e.data := by
  have hfind : findSub (p :: ps) (pre ++ ((p :: ps) ++ (e.data ++ [quoteChar])))
      = some (e.data ++ [quoteChar]) := by
    rw [findSub_skip p ps pre _ hpre, findSub_self]
  rw [extractQuoted_of_findSub _ _ _ hfind]
  have hcap : (e.data ++ [quoteChar]).takeWhile (fun c => c ≠ quoteChar) = e.data :=
    takeWhile_no_quote e.data [] hq
  have hne : e.data.isEmpty = false := by
    cases h : e.data with
    | nil => exact absurd h (data_ne_nil e he)
    | cons a t => rfl
  have hdrop : (e.data ++ [quoteChar]).drop e.data.length = [quoteChar] :=
    List.drop_left e.data [quoteChar]
  simp only [hcap, hne, hdrop]
  simp

/-! ### Characterizing `search` on the recognized query shapes -/

theorem emailArm_ne_users (tbl : String) (ql : List Char) (st : DB) (h : tbl ≠ "Users") :
    emailArm tbl ql st = none := by
  unfold emailArm
  split
  · split
    · simp [h]
    · rfl
  · rfl

theorem uidKeyL_cons : uidKeyL = 'W' :: "HERE user_id=".data := rfl

theorem uidPatL_cons : uidPatL = 'W' :: ("HERE user_id=".data ++ [quoteChar]) := rfl

/-- No capital W occurs before the WHERE clause of the canonical query. -/
theorem selPortfolios_no_W : ∀ c ∈ "SELECT * FROM Portfolios ".data, c ≠ 'W' := by decide

theorem portfoliosOwnerQuery_data (e : String) :
    (portfoliosOwnerQuery e).data =
      "SELECT * FROM Portfolios ".data ++ (uidKeyL ++ ([quoteChar] ++ (e.data ++ [quoteChar]))) := by
  simp [portfoliosOwnerQuery, data_append, sq, uidKeyL]

theorem portfoliosOwnerQuery_data2 (e : String) :
    (portfoliosOwnerQuery e).data =
      "SELECT * FROM Portfolios ".data ++ (uidPatL ++ (e.data ++ [quoteChar])) := by
  simp [portfoliosOwnerQuery, data_append, sq, uidPatL, uidKeyL]

theorem findSub_uidKey (e : String) :
    findSub uidKeyL (portfoliosOwnerQuery e).data
      = some ([quoteChar] ++ (e.data ++ [quoteChar])) := by
  rw [portfoliosOwnerQuery_data, uidKeyL_cons,
    findSub_skip _ _ _ _ selPortfolios_no_W, findSub_self]

theorem extractQuoted_uidPat (e : String) (he : e ≠ "") (hq : ∀ c ∈ e.data, c ≠ quoteChar) :
    extractQuoted (portfoliosOwnerQuery e).data uidPatL = some e.data := by
  rw [portfoliosOwnerQuery_data2, uidPatL_cons]
  exact extractQuoted_canonical _ _ _ e selPortfolios_no_W he hq

theorem uidArm_canonical (e : String) (st : DB) (he : e ≠ "")
    (hq : ∀ c ∈ e.data, c ≠ quoteChar) :
    uidArm "Portfolios" (portfoliosOwnerQuery e).data st
      = some (.portfolioRows (limitNewest (portfoliosWhere e st))) := by
  unfold uidArm
  have hcont : containsSub (portfoliosOwnerQuery e).data uidKeyL = true := by
    unfold containsSub
    rw [findSub_uidKey]
    rfl
  rw [hcont, if_pos rfl, extractQuoted_uidPat e he hq]
  simp [mk_data]

/-- `search` on the `Portfolios` table with the canonical owner-equality
query returns the matching rows newest-first, capped at one row. -/
theorem search_portfolios_canonical (e : String) (st : DB) (he : e ≠ "")
    (hq : ∀ c ∈ e.data, c ≠ quoteChar) :
    search "Portfolios" (portfoliosOwnerQuery e) st
      = .portfolioRows (limitNewest (portfoliosWhere e st)) := by
  unfold search
  rw [emailArm_ne_users _ _ _ (by decide), uidArm_canonical e st he hq]

/-! ### Lemmas on the newest-row selection -/

theorem tsLe_refl (a : String) : tsLe a a := le_refl a.data

theorem tsLe_trans {a b c : String} (h1 : tsLe a b) (h2 : tsLe b c) : tsLe a c :=
  le_trans h1 h2

theorem tsLt_trans {a b c : String} (h1 : tsLt a b) (h2 : tsLt b c) : tsLt a c :=
  lt_trans h1 h2

theorem tsLe_of_tsLt {a b : String} (h : tsLt a b) : tsLe a b := le_of_lt h

theorem tsLe_of_not_tsLt {a b : String} (h : ¬ tsLt a b) : tsLe b a := le_of_not_lt h

theorem newestOf_cons (r y : PortfolioRow) (t : List PortfolioRow) :
    newestOf r (y :: t)
      = newestOf (if tsLt r.last_updated y.last_updated then y else r) t := rfl

theorem newestOf_mem (r : PortfolioRow) (rs : List PortfolioRow) :
    newestOf r rs ∈ r :: rs := by
  induction rs generalizing r with
  | nil => simp [newestOf]
  | cons y t ih =>
    rw [newestOf_cons]
    by_cases h : tsLt r.last_updated y.last_updated
    · rw [if_pos h]
      have hm := ih y
      simp only [List.mem_cons] at hm ⊢
      tauto
    · rw [if_neg h]
      have hm := ih r
      simp only [List.mem_cons] at hm ⊢
      tauto

theorem newestOf_ge (r : PortfolioRow) (rs : List PortfolioRow) :
    ∀ x ∈ r :: rs, tsLe x.last_updated (newestOf r rs).last_updated := by
  induction rs generalizing r with
  | nil =>
    intro x hx
    simp only [List.mem_cons, List.not_mem_nil, or_false] at hx
    subst hx
    exact tsLe_refl _
  | cons y t ih =>
    intro x hx
    rw [newestOf_cons]
    by_cases h : tsLt r.last_updated y.last_updated
    · rw [if_pos h]
      rcases List.mem_cons.1 hx with hr | hyt
      · subst hr
        exact tsLe_trans (tsLe_of_tsLt h) (ih y y (by simp))
      · exact ih y x hyt
    · rw [if_neg h]
      rcases List.mem_cons.1 hx with hr | hyt
      · subst hr
        exact ih x x (by simp)
      · rcases List.mem_cons.1 hyt with hy | ht
        · subst hy
          exact tsLe_trans (tsLe_of_not_tsLt h) (ih r r (by simp))
        · exact ih r x (by simp [ht])

theorem newestOf_concat_strict (r : PortfolioRow) (rs : List PortfolioRow) (x : PortfolioRow)
    (h : ∀ y ∈ r :: rs, tsLt y.last_updated x.last_updated) :
    newestOf r (rs ++ [x]) = x := by
  induction rs generalizing r with
  | nil =>
    rw [List.nil_append, newestOf_cons, if_pos (h r (by simp))]
    rfl
  | cons y t ih =>
    rw [List.cons_append, newestOf_cons]
    by_cases hc : tsLt r.last_updated y.last_updated
    · rw [if_pos hc]
      exact ih y (fun z hz => h z (by simp only [List.mem_cons] at hz ⊢; tauto))
    · rw [if_neg hc]
      exact ih r (fun z hz => h z (by simp only [List.mem_cons] at hz ⊢; tauto))

theorem limitNewest_concat_strict (l : List PortfolioRow) (x : PortfolioRow)
    (h : ∀ y ∈ l, tsLt y.last_updated x.last_updated) :
    limitNewest (l ++ [x]) = [x] := by
  cases l with
  | nil => rfl
  | cons r rs =>
    rw [List.cons_append]
    show [newestOf r (rs ++ [x])] = [x]
    rw [newestOf_concat_strict r rs x h]

theorem limitNewest_spec (l : List PortfolioRow) (hne : l ≠ []) :
    ∃ r, limitNewest l = [r] ∧ r ∈ l ∧ ∀ y ∈ l, tsLe y.last_updated r.last_updated := by
  cases l with
  | nil => exact absurd rfl hne
  | cons a t => exact ⟨newestOf a t, rfl, newestOf_mem a t, newestOf_ge a t⟩

/-! ### Behaviour of `deleteRows` on the supported shape -/

theorem emailTruthy_some {e : String} (he : e ≠ "") : emailTruthy (some e) = true := by
  simp only [emailTruthy, bne_iff_ne, ne_eq, decide_eq_true_eq]
  exact he

theorem deleteRows_users_ok (e : String) (st : DB) (he : e ≠ "") :
    deleteRows false false "Users" (some e) st
      = (.ok (st.users.filter (fun r => r.email = e)).length,
         ⟨st.users.filter (fun r => r.email ≠ e),
          st.portfolios.filter (fun r => r.user_id ≠ e),
          st.nextUserId, st.nextPortfolioId⟩) := by
  unfold deleteRows
  rw [emailTruthy_some he]
  simp

theorem deleteRows_users_uFail (e : String) (st : DB) (he : e ≠ "") :
    deleteRows false true "Users" (some e) st
      = (.error .engineFailure,
         ⟨st.users, st.portfolios.filter (fun r => r.user_id ≠ e),
          st.nextUserId, st.nextPortfolioId⟩) := by
  unfold deleteRows
  rw [emailTruthy_some he]
  simp

theorem deleteRows_users_pFail (e : String) (st : DB) (he : e ≠ "") :
    deleteRows true false "Users" (some e) st
      = (.ok (st.users.filter (fun r => r.email = e)).length,
         ⟨st.users.filter (fun r => r.email ≠ e), st.portfolios,
          st.nextUserId, st.nextPortfolioId⟩) := by
  unfold deleteRows
  rw [emailTruthy_some he]
  simp

theorem portfoliosWhere_after_delete (e : String) (l : List PortfolioRow) :
    (l.filter (fun r => r.user_id ≠ e)).filter (fun r => r.user_id = e) = [] := by
  rw [List.filter_eq_nil_iff]
  intro a ha
  have h1 := List.of_mem_filter ha
  simp only [ne_eq, decide_not, Bool.not_eq_eq_eq_not, Bool.not_true,
    decide_eq_false_iff_not] at h1
  simp only [decide_eq_true_eq]
  exact h1

/-! ### Behaviour of `insertRow` per table -/

/-- Engine-side duplicate test for the UNIQUE index on `Users.email`. -/
def hasEmail (st : DB) (e : String) : Bool :=
  st.users.any (fun r => r.email = e)

theorem insertRow_users_conflict (now e p n : String) (c : Option String) (st : DB)
    (h : hasEmail st e = true) :
    insertRow now "Users" (.usersData e p n c) st = .error .uniqueConflict := by
  unfold insertRow
  rw [if_pos rfl]
  have h2 : (st.users.any fun r => decide (r.email = e)) = true := h
  simp only [h2, if_true]

theorem insertRow_users_ok (now e p n : String) (c : Option String) (st : DB)
    (h : hasEmail st e = false) :
    insertRow now "Users" (.usersData e p n c) st
      = .ok ⟨st.users ++ [⟨st.nextUserId, e, p, n, jsOr c now, now⟩],
             st.portfolios, st.nextUserId + 1, st.nextPortfolioId⟩ := by
  unfold insertRow
  rw [if_pos rfl]
  have h2 : (st.users.any fun r => decide (r.email = e)) = false := h
  simp only [h2, Bool.false_eq_true, if_false]

theorem insertRow_portfolios (now uid pd : String) (lu : Option String) (st : DB) :
    insertRow now "Portfolios" (.portfoliosData uid pd lu) st
      = .ok ⟨st.users,
             st.portfolios ++ [⟨st.nextPortfolioId, uid, pd, jsOr lu now⟩],
             st.nextUserId, st.nextPortfolioId + 1⟩ := by
  unfold insertRow
  rw [if_neg (by decide : ¬ ("Portfolios" : String) = "Users"), if_pos rfl]

/-! ### Concrete fixtures used by witnesses and counterexamples -/

/-- Concrete user row fixture. -/
def userA : UserRow := ⟨1, "a@x.com", "$2a$12$hash", "A", "t0", "t0"⟩

/-- Concrete portfolio row fixture owned by `userA`. -/
def portA : PortfolioRow := ⟨1, "a@x.com", "pd0", "t1"⟩

/-- Concrete database fixture: one user with one portfolio snapshot. -/
def dbA : DB := ⟨[userA], [portA], 2, 2⟩

/-- Concrete query whose shape matches neither recognized pattern. -/
def rangeQuery : String := "SELECT * FROM Users WHERE created_at > 2020"

/-! ### Claims -/

/-- C1: calling deleteRows on the Users table with criteria containing a
(nonempty, quote-free) email `e` removes every Portfolios row whose
user_id equals `e` and the Users row with that email, and resolves with
the number of Users rows removed; a subsequent search for portfolios by
that owner returns zero rows. -/
theorem claim1_delete_cascade (e : String) (st : DB) (he : e ≠ "")
    (hq : ∀ c ∈ e.data, c ≠ quoteChar) :
    deleteRows false false "Users" (some e) st
      = (.ok (st.users.filter (fun r => r.email = e)).length,
         ⟨st.users.filter (fun r => r.email ≠ e),
          st.portfolios.filter (fun r => r.user_id ≠ e),
          st.nextUserId, st.nextPortfolioId⟩) ∧
    search "Portfolios" (portfoliosOwnerQuery e)
        (deleteRows false false "Users" (some e) st).2
      = .portfolioRows [] := by
  refine ⟨deleteRows_users_ok e st he, ?_⟩
  rw [deleteRows_users_ok e st he, search_portfolios_canonical e _ he hq]
  simp only [portfoliosWhere, portfoliosWhere_after_delete]
  rfl

/-- Witness for C1 at a concrete user, portfolio and database. -/
theorem claim1_witness :
    deleteRows false false "Users" (some "a@x.com") dbA = (.ok 1, ⟨[], [], 2, 2⟩) ∧
    search "Portfolios" (portfoliosOwnerQuery "a@x.com")
        (deleteRows false false "Users" (some "a@x.com") dbA).2
      = .portfolioRows [] := by
  have h := claim1_delete_cascade "a@x.com" dbA (by decide) (by decide)
  exact ⟨h.1.trans rfl, h.2⟩

/-- C2 (amended): the cascade performed by deleteRows on the Users table
is not atomic.  The two DELETE statements autocommit separately: if the
engine fails the Users delete, the operation rejects but the Portfolios
rows for that email stay removed while the Users row remains; if the
engine fails the Portfolios delete, the error is swallowed and the
operation still resolves, leaving orphaned Portfolios rows behind the
removed Users row. -/
theorem claim2_cascade_not_atomic (e : String) (st : DB) (he : e ≠ "") :
    deleteRows false true "Users" (some e) st
      = (.error .engineFailure,
         ⟨st.users, st.portfolios.filter (fun r => r.user_id ≠ e),
          st.nextUserId, st.nextPortfolioId⟩) ∧
    deleteRows true false "Users" (some e) st
      = (.ok (st.users.filter (fun r => r.email = e)).length,
         ⟨st.users.filter (fun r => r.email ≠ e), st.portfolios,
          st.nextUserId, st.nextPortfolioId⟩) :=
  ⟨deleteRows_users_uFail e st he, deleteRows_users_pFail e st he⟩

/-- Witness for C2 (amended) at a concrete database. -/
theorem claim2_witness :
    deleteRows false true "Users" (some "a@x.com") dbA
      = (.error .engineFailure, ⟨[userA], [], 2, 2⟩) ∧
    deleteRows true false "Users" (some "a@x.com") dbA
      = (.ok 1, ⟨[], [portA], 2, 2⟩) := by
  have h := claim2_cascade_not_atomic "a@x.com" dbA (by decide)
  exact ⟨h.1.trans rfl, h.2.trans rfl⟩

/-- Counterexample for C2 as stated: on a database with one user owning
one portfolio, a failing Users delete makes the operation reject while
the stored state has changed (the portfolio is gone, the user remains). -/
theorem claim2_counterexample :
    deleteRows false true "Users" (some "a@x.com") dbA
      = (.error .engineFailure, ⟨[userA], [], 2, 2⟩) ∧
    (⟨[userA], [], 2, 2⟩ : DB) ≠ dbA :=
  ⟨rfl, by decide⟩

/-- C3 (amended): a query string whose shape is not one of the two
recognized patterns is not rejected with an Unsupported-Query error;
search falls back to handing the raw string to the engine. -/
theorem claim3_raw_fallthrough (tbl q : String) (st : DB)
    (h1 : containsSub q.data emailKeyL = false)
    (h2 : containsSub q.data uidKeyL = false) :
    search tbl q st = .rawFallback q := by
  unfold search emailArm uidArm
  rw [h1, h2]
  simp

/-- Witness for C3 (amended) at a concrete range-filter query. -/
theorem claim3_witness :
    search "Users" rangeQuery emptyDB = .rawFallback rangeQuery :=
  claim3_raw_fallthrough "Users" rangeQuery emptyDB (by decide) (by decide)

/-- Counterexample for C3 as stated: a range-filter query is passed
through to the engine as a raw query instead of being rejected. -/
theorem claim3_counterexample :
    search "Portfolios" "SELECT * FROM Portfolios WHERE last_updated > 2020" dbA
      = .rawFallback "SELECT * FROM Portfolios WHERE last_updated > 2020" := by
  decide

/-- C9: deleteRows is supported only for the Users table with an email
criterion; a call on any other table, or on Users with criteria lacking
an email field, rejects with the Delete-criteria-not-supported error and
removes no rows. -/
theorem claim9_delete_unsupported (pf uf : Bool) (tbl : String)
    (criteria : Option String) (st : DB) (h : tbl ≠ "Users" ∨ criteria = none) :
    deleteRows pf uf tbl criteria st = (.error (.unsupportedDelete tbl), st) := by
  unfold deleteRows
  rcases h with h | h
  · simp [decide_eq_false h]
  · subst h
    simp [emailTruthy]

/-- Witness for C9: a delete on the Portfolios table rejects untouched. -/
theorem claim9_witness :
    deleteRows false false "Portfolios" (some "a@x.com") dbA
      = (.error (.unsupportedDelete "Portfolios"), dbA) :=
  claim9_delete_unsupported false false "Portfolios" (some "a@x.com") dbA
    (Or.inl (by decide))

/-- C8: inserting a Portfolios row with payload P for owner e at a
timestamp t newer than every stored row for that owner, then searching
the Portfolios table by user_id = e, returns exactly the inserted row,
whose payload equals P. -/
theorem claim8_roundtrip (now e P t : String) (st : DB)
    (he : e ≠ "") (hq : ∀ c ∈ e.data, c ≠ quoteChar) (ht : t ≠ "")
    (hnew : ∀ r ∈ st.portfolios, r.user_id = e → tsLt r.last_updated t) :
    ∃ st1, insertRow now "Portfolios" (.portfoliosData e P (some t)) st = .ok st1 ∧
      search "Portfolios" (portfoliosOwnerQuery e) st1
        = .portfolioRows [⟨st.nextPortfolioId, e, P, t⟩] := by
  have hj : jsOr (some t) now = t := by simp [jsOr, ht]
  have hins := insertRow_portfolios now e P (some t) st
  rw [hj] at hins
  refine ⟨_, hins, ?_⟩
  rw [search_portfolios_canonical e _ he hq]
  have hfil : portfoliosWhere e
      ⟨st.users, st.portfolios ++ [⟨st.nextPortfolioId, e, P, t⟩],
       st.nextUserId, st.nextPortfolioId + 1⟩
      = st.portfolios.filter (fun r => r.user_id = e)
          ++ [⟨st.nextPortfolioId, e, P, t⟩] := by
    show (st.portfolios ++ [(⟨st.nextPortfolioId, e, P, t⟩ : PortfolioRow)]).filter
        (fun r => r.user_id = e) = _
    rw [List.filter_append]
    simp
  have hstrict : ∀ y ∈ st.portfolios.filter (fun r => r.user_id = e),
      tsLt y.last_updated t := by
    intro y hy
    have hmem := List.mem_filter.1 hy
    exact hnew y hmem.1 (by simpa using hmem.2)
  rw [hfil, limitNewest_concat_strict _ _ hstrict]

/-- Witness for C8 at a concrete payload over the database fixture. -/
theorem claim8_witness :
    ∃ st1, insertRow "n0" "Portfolios" (.portfoliosData "a@x.com" "payloadP" (some "t9")) dbA
        = .ok st1 ∧
      search "Portfolios" (portfoliosOwnerQuery "a@x.com") st1
        = .portfolioRows [⟨2, "a@x.com", "payloadP", "t9"⟩] :=
  claim8_roundtrip "n0" "a@x.com" "payloadP" "t9" dbA (by decide) (by decide)
    (by decide) (by decide)

/-- C6: searching Portfolios by an owner-equality filter returns the
single row with the greatest last_updated among that owner's rows
(ordered by last_updated descending, capped to the newest row); in
particular, after inserting three rows for the same owner at increasing
timestamps t1 < t2 < t3 (all newer than the rows already stored for the
owner), the search returns the row written at t3. -/
theorem claim6_search_newest (e : String) (st : DB) (he : e ≠ "")
    (hq : ∀ c ∈ e.data, c ≠ quoteChar) :
    (portfoliosWhere e st ≠ [] →
      ∃ r, search "Portfolios" (portfoliosOwnerQuery e) st = .portfolioRows [r]
        ∧ r ∈ portfoliosWhere e st
        ∧ ∀ y ∈ portfoliosWhere e st, tsLe y.last_updated r.last_updated) ∧
    (∀ now1 now2 now3 t1 t2 t3 p1 p2 p3 : String,
      t1 ≠ "" → t2 ≠ "" → t3 ≠ "" → tsLt t1 t2 → tsLt t2 t3 →
      (∀ r ∈ st.portfolios, r.user_id = e → tsLt r.last_updated t1) →
      ∀ st1 st2 st3 : DB,
        insertRow now1 "Portfolios" (.portfoliosData e p1 (some t1)) st = .ok st1 →
        insertRow now2 "Portfolios" (.portfoliosData e p2 (some t2)) st1 = .ok st2 →
        insertRow now3 "Portfolios" (.portfoliosData e p3 (some t3)) st2 = .ok st3 →
        search "Portfolios" (portfoliosOwnerQuery e) st3
          = .portfolioRows [⟨st2.nextPortfolioId, e, p3, t3⟩]) := by
  constructor
  · intro hne
    obtain ⟨r, hr1, hr2, hr3⟩ := limitNewest_spec (portfoliosWhere e st) hne
    refine ⟨r, ?_, hr2, hr3⟩
    rw [search_portfolios_canonical e st he hq, hr1]
  · intro now1 now2 now3 t1 t2 t3 p1 p2 p3 ht1 ht2 ht3 h12 h23 hold st1 st2 st3 hi1 hi2 hi3
    have hj1 : jsOr (some t1) now1 = t1 := by simp [jsOr, ht1]
    have hj2 : jsOr (some t2) now2 = t2 := by simp [jsOr, ht2]
    have hj3 : jsOr (some t3) now3 = t3 := by simp [jsOr, ht3]
    rw [insertRow_portfolios, hj1] at hi1
    injection hi1 with hst1
    subst hst1
    rw [insertRow_portfolios, hj2] at hi2
    injection hi2 with hst2
    subst hst2
    rw [insertRow_portfolios, hj3] at hi3
    injection hi3 with hst3
    subst hst3
    rw [search_portfolios_canonical e _ he hq]
    have hfil : portfoliosWhere e
        ⟨st.users,
         ((st.portfolios ++ [⟨st.nextPortfolioId, e, p1, t1⟩])
            ++ [⟨st.nextPortfolioId + 1, e, p2, t2⟩])
            ++ [⟨st.nextPortfolioId + 1 + 1, e, p3, t3⟩],
         st.nextUserId, st.nextPortfolioId + 1 + 1 + 1⟩
        = ((st.portfolios.filter (fun r => r.user_id = e)
              ++ [⟨st.nextPortfolioId, e, p1, t1⟩])
              ++ [⟨st.nextPortfolioId + 1, e, p2, t2⟩])
              ++ [⟨st.nextPortfolioId + 1 + 1, e, p3, t3⟩] := by
      show (((st.portfolios ++ _) ++ _) ++ _).filter (fun r => r.user_id = e) = _
      simp [List.filter_append]
    rw [hfil, limitNewest_concat_strict]
    intro y hy
    rcases List.mem_append.1 hy with hy2 | hy2
    · rcases List.mem_append.1 hy2 with hy3 | hy3
      · have hmem := List.mem_filter.1 hy3
        have hpy : y.user_id = e := by simpa using hmem.2
        exact tsLt_trans (tsLt_trans (hold y hmem.1 hpy) h12) h23
      · simp at hy3
        subst hy3
        exact tsLt_trans h12 h23
    · simp at hy2
      subst hy2
      exact h23

/-- Database fixture after the first of three timestamped inserts. -/
def st6a : DB := ⟨[userA], [portA, ⟨2, "a@x.com", "p1", "t2"⟩], 2, 3⟩

/-- Database fixture after the second of three timestamped inserts. -/
def st6b : DB := ⟨[userA], [portA, ⟨2, "a@x.com", "p1", "t2"⟩, ⟨3, "a@x.com", "p2", "t3"⟩], 2, 4⟩

/-- Database fixture after the third of three timestamped inserts. -/
def st6c : DB :=
  ⟨[userA],
   [portA, ⟨2, "a@x.com", "p1", "t2"⟩, ⟨3, "a@x.com", "p2", "t3"⟩, ⟨4, "a@x.com", "p3", "t4"⟩],
   2, 5⟩

/-- Witness for C6 over the database fixture: the stored search and the
three-insert scenario at timestamps t2 < t3 < t4. -/
theorem claim6_witness :
    (∃ r, search "Portfolios" (portfoliosOwnerQuery "a@x.com") dbA = .portfolioRows [r]
       ∧ r ∈ portfoliosWhere "a@x.com" dbA
       ∧ ∀ y ∈ portfoliosWhere "a@x.com" dbA, tsLe y.last_updated r.last_updated) ∧
    search "Portfolios" (portfoliosOwnerQuery "a@x.com") st6c
      = .portfolioRows [⟨st6b.nextPortfolioId, "a@x.com", "p3", "t4"⟩] := by
  have h := claim6_search_newest "a@x.com" dbA (by decide) (by decide)
  refine ⟨h.1 (by decide), ?_⟩
  exact h.2 "n1" "n2" "n3" "t2" "t3" "t4" "p1" "p2" "p3" (by decide) (by decide)
    (by decide) (by decide) (by decide) (by decide) st6a st6b st6c rfl rfl rfl

/-- C4: inserting a Users row with a fresh email twice yields exactly one
success and one Conflict error, and every adapter operation preserves the
invariant that email is unique across all Users rows. -/
theorem claim4_unique_email :
    (∀ (now e p n : String) (c : Option String) (st : DB), hasEmail st e = false →
      ∃ st1, insertRow now "Users" (.usersData e p n c) st = .ok st1 ∧
        insertRow now "Users" (.usersData e p n c) st1 = .error .uniqueConflict) ∧
    (∀ (now : String) (op : Op) (st : DB), UniqueEmails st → UniqueEmails (applyOp now op st)) := by
  constructor
  · intro now e p n c st h
    refine ⟨_, insertRow_users_ok now e p n c st h, ?_⟩
    apply insertRow_users_conflict
    unfold hasEmail
    rw [List.any_append]
    simp
  · intro now op st h
    cases op with
    | ins tbl d =>
      simp only [applyOp]
      by_cases h1 : tbl = "Users"
      · subst h1
        cases d with
        | usersData e p n c =>
          cases hx : hasEmail st e with
          | true =>
            rw [insertRow_users_conflict now e p n c st hx]
            exact h
          | false =>
            rw [insertRow_users_ok now e p n c st hx]
            show UniqueEmails ⟨st.users ++ [⟨st.nextUserId, e, p, n, jsOr c now, now⟩],
              st.portfolios, st.nextUserId + 1, st.nextPortfolioId⟩
            unfold UniqueEmails at h ⊢
            rw [List.pairwise_append]
            refine ⟨h, List.pairwise_singleton _ _, ?_⟩
            intro a ha b hb
            have hb2 : b = ⟨st.nextUserId, e, p, n, jsOr c now, now⟩ := by simpa using hb
            subst hb2
            show a.email ≠ e
            intro hae
            have hx2 : hasEmail st e = true := by
              unfold hasEmail
              rw [List.any_eq_true]
              exact ⟨a, ha, by simp [hae]⟩
            simp [hx] at hx2
        | portfoliosData u pd lu =>
          have hins : insertRow now "Users" (.portfoliosData u pd lu) st
              = .error .notNullViolation := by
            unfold insertRow
            rw [if_pos rfl]
          rw [hins]
          exact h
      · by_cases h2 : tbl = "Portfolios"
        · subst h2
          cases d with
          | portfoliosData u pd lu =>
            rw [insertRow_portfolios]
            exact h
          | usersData e p n c =>
            have hins : insertRow now "Portfolios" (.usersData e p n c) st
                = .error .notNullViolation := by
              unfold insertRow
              rw [if_neg (by decide : ¬ ("Portfolios" : String) = "Users"), if_pos rfl]
            rw [hins]
            exact h
        · have hins : insertRow now tbl d st = .error (.unsupportedTable tbl) := by
            unfold insertRow
            rw [if_neg h1, if_neg h2]
          rw [hins]
          exact h
    | upd tbl c p =>
      simp only [applyOp]
      by_cases h1 : tbl = "Portfolios"
      · subst h1
        have hupd : updateRow now "Portfolios" c p st
            = .ok ({ st with portfolios := st.portfolios.map (fun r =>
                      if r.user_id = c then
                        { r with portfolio_data := p, last_updated := now }
                      else r) },
                   (st.portfolios.filter (fun r => r.user_id = c)).length) := by
          unfold updateRow
          rw [if_pos rfl]
        rw [hupd]
        exact h
      · have hupd : updateRow now tbl c p st = .error (.unsupportedUpdate tbl) := by
          unfold updateRow
          rw [if_neg h1]
        rw [hupd]
        exact h
    | del pf uf tbl c =>
      simp only [applyOp]
      unfold deleteRows
      rcases Bool.eq_false_or_eq_true (decide (tbl = "Users") && emailTruthy c) with hcond | hcond
      · rw [if_pos hcond]
        cases pf <;> cases uf <;>
          first
            | exact h
            | exact List.Pairwise.filter _ h
      · rw [if_neg (by simp [hcond])]
        exact h

/-! ### Lemmas on the migration job -/

theorem migrateEntry_noop (b : String → String) (n em : String) (u : LegacyUser) (st : DB)
    (h : hasEmail st em = true) : migrateEntry b n em u st = st := by
  simp only [migrateEntry]
  rw [insertRow_users_conflict _ _ _ _ _ _ h]

theorem migrateEntry_fresh (b : String → String) (n em : String) (u : LegacyUser) (st : DB)
    (h : hasEmail st em = false) :
    (migrateEntry b n em u st).users
      = st.users ++ [⟨st.nextUserId, em, migratedPassword b u,
          jsOr u.fullName (jsOr u.name "User"), jsOr (some (jsOr u.created_at n)) n, n⟩] := by
  simp only [migrateEntry]
  rw [insertRow_users_ok _ _ _ _ _ _ h]
  cases hp : u.portfolio with
  | none => rfl
  | some pd => rfl

theorem hasEmail_migrateEntry_self (b : String → String) (n em : String) (u : LegacyUser)
    (st : DB) : hasEmail (migrateEntry b n em u st) em = true := by
  cases hx : hasEmail st em with
  | true =>
    rw [migrateEntry_noop b n em u st hx]
    exact hx
  | false =>
    unfold hasEmail
    rw [migrateEntry_fresh b n em u st hx, List.any_append]
    simp

theorem hasEmail_migrateEntry_mono (b : String → String) (n em e : String) (u : LegacyUser)
    (st : DB) (h : hasEmail st e = true) :
    hasEmail (migrateEntry b n em u st) e = true := by
  cases hx : hasEmail st em with
  | true =>
    rw [migrateEntry_noop b n em u st hx]
    exact h
  | false =>
    unfold hasEmail
    rw [migrateEntry_fresh b n em u st hx, List.any_append]
    have h2 : (st.users.any fun r => decide (r.email = e)) = true := h
    simp [h2]

theorem hasEmail_migrateLoop_mono (b : String → String) (n e : String)
    (us : List (String × LegacyUser)) (st : DB) (h : hasEmail st e = true) :
    hasEmail (migrateLoop b n us st) e = true := by
  induction us generalizing st with
  | nil => exact h
  | cons q rest ih =>
    obtain ⟨em, u⟩ := q
    exact ih _ (hasEmail_migrateEntry_mono b n em e u st h)

theorem hasEmail_migrateLoop_covers (b : String → String) (n : String)
    (us : List (String × LegacyUser)) (st : DB) :
    ∀ p ∈ us, hasEmail (migrateLoop b n us st) p.1 = true := by
  induction us generalizing st with
  | nil =>
    intro p hp
    cases hp
  | cons q rest ih =>
    intro p hp
    obtain ⟨em, u⟩ := q
    rcases List.mem_cons.1 hp with hpe | hpm
    · subst hpe
      exact hasEmail_migrateLoop_mono b n em rest _ (hasEmail_migrateEntry_self b n em u st)
    · exact ih _ p hpm

theorem migrateLoop_noop (b : String → String) (n : String)
    (us : List (String × LegacyUser)) (st : DB)
    (h : ∀ p ∈ us, hasEmail st p.1 = true) :
    migrateLoop b n us st = st := by
  induction us with
  | nil => rfl
  | cons q rest ih =>
    obtain ⟨em, u⟩ := q
    show migrateLoop b n rest (migrateEntry b n em u st) = st
    rw [migrateEntry_noop b n em u st (h (em, u) (by simp))]
    exact ih (fun p hp => h p (by simp [hp]))

theorem migrateUserData_loaded_none (b : String → String) (n : String) (bk : Bool)
    (st : DB) (snap : LegacySnapshot) (hu : snap.users = none) :
    migrateUserData b n (.loaded snap) bk st = (.nothingToMigrate, st) := by
  simp only [migrateUserData, hu]

theorem migrateUserData_loaded_empty (b : String → String) (n : String) (bk : Bool)
    (st : DB) (snap : LegacySnapshot) (us : List (String × LegacyUser))
    (hu : snap.users = some us) (he : us.isEmpty = true) :
    migrateUserData b n (.loaded snap) bk st = (.nothingToMigrate, st) := by
  simp only [migrateUserData, hu, he, if_true]

theorem migrateUserData_loaded_run (b : String → String) (n : String)
    (snap : LegacySnapshot) (us : List (String × LegacyUser)) (bk : Bool) (st : DB)
    (hu : snap.users = some us) (hne : us.isEmpty = false) :
    migrateUserData b n (.loaded snap) bk st
      = (if bk then .completed else .fatal, migrateLoop b n us st) := by
  simp only [migrateUserData, hu, hne, Bool.false_eq_true, if_false]
  cases bk <;> rfl

/-! ### Claims on the migration job and the remaining witnesses -/

/-- Legacy user fixture carrying a plaintext password and a portfolio. -/
def luPlainA : LegacyUser := ⟨"plain123", none, some "A", none, some "pd0", none⟩

/-- Legacy user fixture whose password already matches the hash marker. -/
def luHashedB : LegacyUser := ⟨"$2a$12$abc", some "B", none, none, none, none⟩

/-- C5: running the Migration Job twice against the same legacy snapshot
produces the same final Users and Portfolios row set as running it once
(no duplicate rows), and a password already matching the known
hash-marker pattern is kept as-is rather than hashed again. -/
theorem claim5_idempotent :
    (∀ (b1 b2 : String → String) (n1 n2 : String) (bk1 bk2 : Bool)
        (load : LoadResult) (st0 : DB),
      (migrateUserData b2 n2 load bk2 (migrateUserData b1 n1 load bk1 st0).2).2
        = (migrateUserData b1 n1 load bk1 st0).2) ∧
    (∀ (b : String → String) (u : LegacyUser), isHashed u.password = true →
      migratedPassword b u = u.password) := by
  constructor
  · intro b1 b2 n1 n2 bk1 bk2 load st0
    cases load with
    | absent => rfl
    | permissionError => rfl
    | malformed => rfl
    | loaded snap =>
      cases hu : snap.users with
      | none =>
        have h1 : (migrateUserData b1 n1 (.loaded snap) bk1 st0).2 = st0 := by
          rw [migrateUserData_loaded_none b1 n1 bk1 st0 snap hu]
        rw [h1]
        rw [migrateUserData_loaded_none b2 n2 bk2 st0 snap hu]
      | some us =>
        cases he : us.isEmpty with
        | true =>
          have h1 : (migrateUserData b1 n1 (.loaded snap) bk1 st0).2 = st0 := by
            rw [migrateUserData_loaded_empty b1 n1 bk1 st0 snap us hu he]
          rw [h1]
          rw [migrateUserData_loaded_empty b2 n2 bk2 st0 snap us hu he]
        | false =>
          have h1 : (migrateUserData b1 n1 (.loaded snap) bk1 st0).2
              = migrateLoop b1 n1 us st0 := by
            rw [migrateUserData_loaded_run b1 n1 snap us bk1 st0 hu he]
          have h2 : (migrateUserData b2 n2 (.loaded snap) bk2 (migrateLoop b1 n1 us st0)).2
              = migrateLoop b2 n2 us (migrateLoop b1 n1 us st0) := by
            rw [migrateUserData_loaded_run b2 n2 snap us bk2 _ hu he]
          rw [h1, h2]
          exact migrateLoop_noop b2 n2 us _ (hasEmail_migrateLoop_covers b1 n1 us st0)
  · intro b u h
    unfold migratedPassword
    rw [if_pos h]

/-- Witness for C5 at a concrete one-user snapshot and a hashed password. -/
theorem claim5_witness :
    (migrateUserData id "n2" (.loaded ⟨some [("a@x.com", luPlainA)]⟩) true
        (migrateUserData id "n1" (.loaded ⟨some [("a@x.com", luPlainA)]⟩) true emptyDB).2).2
      = (migrateUserData id "n1" (.loaded ⟨some [("a@x.com", luPlainA)]⟩) true emptyDB).2 ∧
    migratedPassword id luHashedB = "$2a$12$abc" :=
  ⟨claim5_idempotent.1 id id "n1" "n2" true true _ emptyDB,
   (claim5_idempotent.2 id luHashedB (by decide)).trans rfl⟩

/-- C7 (amended): the Migration Job terminates successfully with the
nothing-to-migrate outcome when the legacy snapshot is absent, and a
failure to load the snapshot for any other reason (permission error,
malformed JSON) is treated the same way rather than being fatal; among
the modelled failure points only a backup-write failure is fatal. -/
theorem claim7_load_failures (b : String → String) (n : String) (bk : Bool) (st : DB) :
    migrateUserData b n .absent bk st = (.nothingToMigrate, st) ∧
    migrateUserData b n .permissionError bk st = (.nothingToMigrate, st) ∧
    migrateUserData b n .malformed bk st = (.nothingToMigrate, st) ∧
    (∀ snap us, snap.users = some us → us.isEmpty = false →
      (migrateUserData b n (.loaded snap) false st).1 = .fatal) := by
  refine ⟨rfl, rfl, rfl, ?_⟩
  intro snap us hu hne
  rw [migrateUserData_loaded_run b n snap us false st hu hne]
  rfl

/-- Witness for C7 (amended): a malformed snapshot is benign, a failing
backup write is fatal. -/
theorem claim7_witness :
    migrateUserData id "n" .malformed true emptyDB = (.nothingToMigrate, emptyDB) ∧
    (migrateUserData id "n" (.loaded ⟨some [("a@x.com", luPlainA)]⟩) false emptyDB).1
      = .fatal :=
  ⟨(claim7_load_failures id "n" true emptyDB).2.2.1,
   (claim7_load_failures id "n" false emptyDB).2.2.2 ⟨some [("a@x.com", luPlainA)]⟩
     [("a@x.com", luPlainA)] rfl rfl⟩

/-- Counterexample for C7 as stated: a load failure other than absence
(here a permission error) makes the job terminate successfully with the
nothing-to-migrate outcome instead of failing. -/
theorem claim7_counterexample :
    migrateUserData id "n" .permissionError true emptyDB = (.nothingToMigrate, emptyDB) ∧
    MigrationOutcome.nothingToMigrate ≠ MigrationOutcome.fatal :=
  ⟨rfl, by decide⟩

/-- C10: a legacy snapshot that loads but contains no users (missing or
empty users map) makes the job terminate successfully without touching
the database and without writing a backup; the backup step (successful or
fatal) is reached only when the snapshot loaded with at least one user
entry. -/
theorem claim10_no_backup_without_users (b : String → String) (n : String) (bk : Bool)
    (st : DB) :
    (∀ snap, snap.users = none ∨ snap.users = some [] →
      migrateUserData b n (.loaded snap) bk st = (.nothingToMigrate, st)) ∧
    (∀ load, ((migrateUserData b n load bk st).1 = .completed ∨
              (migrateUserData b n load bk st).1 = .fatal) →
      ∃ snap us, load = .loaded snap ∧ snap.users = some us ∧ us ≠ []) := by
  constructor
  · intro snap h
    rcases h with h | h
    · exact migrateUserData_loaded_none b n bk st snap h
    · exact migrateUserData_loaded_empty b n bk st snap [] h rfl
  · intro load h
    cases load with
    | absent => rcases h with h | h <;> exact MigrationOutcome.noConfusion h
    | permissionError => rcases h with h | h <;> exact MigrationOutcome.noConfusion h
    | malformed => rcases h with h | h <;> exact MigrationOutcome.noConfusion h
    | loaded snap =>
      cases hu : snap.users with
      | none =>
        rw [migrateUserData_loaded_none b n bk st snap hu] at h
        rcases h with h | h <;> exact MigrationOutcome.noConfusion h
      | some us =>
        cases he : us.isEmpty with
        | true =>
          rw [migrateUserData_loaded_empty b n bk st snap us hu he] at h
          rcases h with h | h <;> exact MigrationOutcome.noConfusion h
        | false =>
          refine ⟨snap, us, rfl, hu, ?_⟩
          intro hnil
          subst hnil
          exact absurd he (by decide)

/-- Witness for C10: an empty snapshot leaves everything untouched, and a
completed run certifies a loaded, nonempty snapshot. -/
theorem claim10_witness :
    migrateUserData id "n" (.loaded ⟨none⟩) true emptyDB = (.nothingToMigrate, emptyDB) ∧
    ∃ snap us, (LoadResult.loaded ⟨some [("a@x.com", luPlainA)]⟩) = .loaded snap ∧
      snap.users = some us ∧ us ≠ [] := by
  have h := claim10_no_backup_without_users id "n" true emptyDB
  exact ⟨h.1 ⟨none⟩ (Or.inl rfl),
         h.2 (.loaded ⟨some [("a@x.com", luPlainA)]⟩) (Or.inl rfl)⟩

/-- Witness for C4: the twice-insert at a concrete fresh email, and
invariant preservation across a concrete delete. -/
theorem claim4_witness :
    (∃ st1, insertRow "n" "Users" (.usersData "b@x.com" "pw" "B" none) dbA = .ok st1 ∧
       insertRow "n" "Users" (.usersData "b@x.com" "pw" "B" none) st1
         = .error .uniqueConflict) ∧
    UniqueEmails (applyOp "n" (.del false false "Users" (some "a@x.com")) dbA) := by
  have h := claim4_unique_email
  refine ⟨h.1 "n" "b@x.com" "pw" "B" none dbA (by decide), h.2 "n" _ dbA ?_⟩
  show List.Pairwise _ [userA]
  exact List.pairwise_singleton _ _

end InvTracker
